import Mathlib

/-!
Verification of the FM mod synth (src/main.rs): a shallow embedding of the
oscillator, the ADSR envelope state machine, the shared synthesis parameters,
the control-command dispatch and the audio render callback.

Modelling conventions:
* `f32` values are modelled as exact rationals (`ℚ`); clamping and the
  branch structure of the source are kept exactly.
* `f32::sin` is an abstract function parameter `sin : ℚ → ℚ`: every claim
  proved here holds for an arbitrary sine implementation.
* `std::f32::consts::TAU` is the exact rational value of the `f32` constant
  (`0x40C90FDB`), `13176795 / 2097152`.
* Mutation is explicit state passing: a Rust `&mut self` method becomes a
  function returning the updated structure (paired with the return value
  when the method returns one).
-/

namespace FmSynth

/-- Exact rational value of the `f32` constant `std::f32::consts::TAU`. -/
def TAU : ℚ := 13176795 / 2097152

/-- Floor constant `1e-6` used by `Adsr` (`max(1e-6)` clamps and the release
shape). -/
def EPS : ℚ := 1 / 1000000

/-! ## SineOsc -/

/-- `struct SineOsc { phase: f32, phase_inc: f32 }` -/
structure SineOsc where
  phase : ℚ
  phase_inc : ℚ
deriving DecidableEq

namespace SineOsc

/-- `SineOsc::new(freq, sample_rate)` -/
def new (freq sample_rate : ℚ) : SineOsc :=
  { phase := 0, phase_inc := freq * TAU / sample_rate }

/-- `SineOsc::set_freq(&mut self, freq, sample_rate)` -/
def set_freq (o : SineOsc) (freq sample_rate : ℚ) : SineOsc :=
  { o with phase_inc := freq * TAU / sample_rate }

/-- The phase update performed by `SineOsc::next`:
`self.phase += self.phase_inc; if self.phase >= TAU { self.phase -= TAU; }` -/
def step (o : SineOsc) : SineOsc :=
  let p := o.phase + o.phase_inc
  { o with phase := if TAU ≤ p then p - TAU else p }

/-- `SineOsc::next(&mut self) -> f32`: returns `self.phase.sin()` computed
before the advance, then performs the phase update.  The sine function is an
abstract parameter. -/
def next (sin : ℚ → ℚ) (o : SineOsc) : ℚ × SineOsc :=
  (sin o.phase, o.step)

end SineOsc

/-! ## Adsr -/

/-- `enum AdsrState { Idle, Attack, Decay, Sustain, Release }` -/
inductive AdsrState where
  | Idle
  | Attack
  | Decay
  | Sustain
  | Release
deriving DecidableEq

/-- `struct Adsr { attack, decay, sustain, release: f32, state: AdsrState, level: f32 }` -/
structure Adsr where
  attack : ℚ
  decay : ℚ
  sustain : ℚ
  release : ℚ
  state : AdsrState
  level : ℚ
deriving DecidableEq

namespace Adsr

/-- `Adsr::new(attack, decay, sustain, release)`: clamps `attack`, `decay`
and `release` with `.max(1e-6)`; stores `sustain` unchanged; starts `Idle`
with level `0`. -/
def new (attack decay sustain release : ℚ) : Adsr :=
  { attack := max attack EPS
    decay := max decay EPS
    sustain := sustain
    release := max release EPS
    state := AdsrState.Idle
    level := 0 }

/-- `Adsr::note_on(&mut self)`: `self.state = Attack` unconditionally. -/
def note_on (a : Adsr) : Adsr :=
  { a with state := AdsrState.Attack }

/-- `Adsr::note_off(&mut self)`: move to `Release` only when not `Idle`. -/
def note_off (a : Adsr) : Adsr :=
  if a.state ≠ AdsrState.Idle then { a with state := AdsrState.Release } else a

/-- `Adsr::next(&mut self, dt) -> f32`: one envelope step; returns the new
level together with the updated envelope. -/
def next (a : Adsr) (dt : ℚ) : ℚ × Adsr :=
  let a' :=
    match a.state with
    | AdsrState.Idle => { a with level := 0 }
    | AdsrState.Attack =>
        let l := a.level + dt / a.attack
        if 1 ≤ l then { a with level := 1, state := AdsrState.Decay }
        else { a with level := l }
    | AdsrState.Decay =>
        let l := a.level - dt / a.decay * (1 - a.sustain)
        if l ≤ a.sustain then { a with level := a.sustain, state := AdsrState.Sustain }
        else { a with level := l }
    | AdsrState.Sustain => { a with level := a.sustain }
    | AdsrState.Release =>
        let l := a.level - dt / a.release * max a.level EPS
        if l ≤ 0 then { a with level := 0, state := AdsrState.Idle }
        else { a with level := l }
  (a'.level, a')

end Adsr

/-! ## Shared synthesis parameters -/

/-- `struct SynthState { carrier_freq, mod_ratio, mod_index, amp: f32, adsr: Adsr, gate: bool }` -/
structure SynthState where
  carrier_freq : ℚ
  mod_ratio : ℚ
  mod_index : ℚ
  amp : ℚ
  adsr : Adsr
  gate : Bool
deriving DecidableEq

/-- The initial state built in `main`. -/
def initState : SynthState :=
  { carrier_freq := 220
    mod_ratio := 2
    mod_index := 100
    amp := 1 / 5
    adsr := Adsr.new (1/100) (1/10) (4/5) (3/10)
    gate := false }

/-! ## Control path (command dispatch in `main`) -/

/-- The numeric argument of a command line as the control loop sees it:
`parts.next()` yields nothing (`missing`), or a token that `parse::<f32>()`
rejects (`unparseable`) or accepts (`num v`). -/
inductive Arg where
  | num (v : ℚ)
  | unparseable
  | missing
deriving DecidableEq

/-- One iteration of the stdin dispatch `match cmd { ... }` in `main`:
given the shared state, the first token and its argument, returns the updated
shared state and whether the loop breaks (`"q" | "quit"`). Every other arm,
including unknown commands and failed parses, leaves the state unchanged and
continues. -/
def processCmd (s : SynthState) (cmd : String) (arg : Arg) : SynthState × Bool :=
  match cmd with
  | "q" | "quit" => (s, true)
  | "n" =>
      match arg with
      | Arg.num freq => ({ s with carrier_freq := max freq 1 }, false)
      | _ => (s, false)
  | "r" =>
      match arg with
      | Arg.num v => ({ s with mod_ratio := max v 0 }, false)
      | _ => (s, false)
  | "i" =>
      match arg with
      | Arg.num v => ({ s with mod_index := max v 0 }, false)
      | _ => (s, false)
  | "a" =>
      match arg with
      | Arg.num v => ({ s with amp := min (max v 0) 1 }, false)
      | _ => (s, false)
  | "on" => ({ s with gate := true, adsr := s.adsr.note_on }, false)
  | "off" => ({ s with gate := false, adsr := s.adsr.note_off }, false)
  | _ => (s, false)

/-! ## Render path (`build_and_run_stream` callback) -/

/-- The state owned by the audio callback: the two local oscillators plus the
shared synthesis parameters (sequential model of the `Arc<Mutex<_>>`). -/
structure RenderState where
  carrier : SineOsc
  modulator : SineOsc
  shared : SynthState
deriving DecidableEq

/-- One iteration of the callback's `while idx < data.len()` loop: snapshot
the shared state, set both oscillator frequencies, advance the modulator,
advance the carrier with the instantaneous phase increment for this sample
only (restoring the nominal increment after), step a copy of the shared
envelope (`let mut ad = adsr_local; ad.next(dt)` advances the copy `ad`;
`adsr_local` itself is written back), and write `out` into every channel
slot of the frame. -/
def renderStep (sin : ℚ → ℚ) (sample_rate : ℚ) (channels : ℕ)
    (rs : RenderState) : RenderState × List ℚ :=
  let dt := 1 / sample_rate
  let snapshot := rs.shared
  let carrier_freq := snapshot.carrier_freq
  let mod_freq := snapshot.carrier_freq * snapshot.mod_ratio
  let carrier := rs.carrier.set_freq carrier_freq sample_rate
  let modulator := rs.modulator.set_freq mod_freq sample_rate
  let modRes := modulator.next sin
  let mod_sample := modRes.1
  let modulator := modRes.2
  let freq_deviation := snapshot.mod_index * mod_sample
  let inst_phase_inc := (carrier_freq + freq_deviation) * TAU / sample_rate
  let prev_inc := carrier.phase_inc
  let carrier := { carrier with phase_inc := inst_phase_inc }
  let carRes := carrier.next sin
  let sample := carRes.1
  let carrier := carRes.2
  let carrier := { carrier with phase_inc := prev_inc }
  let s2 := rs.shared
  let adsr_local := s2.adsr
  let level := (adsr_local.next dt).1
  let s2 := { s2 with adsr := adsr_local }
  let env_level := level
  let out := sample * env_level * snapshot.amp
  ({ carrier := carrier, modulator := modulator, shared := s2 },
   List.replicate channels out)

/-- The whole callback body, producing the output buffer as a list of frames
(the flat `data` slice is their concatenation): `n` is the number of
loop iterations, `data.len() / channels`. -/
def renderCallback (sin : ℚ → ℚ) (sample_rate : ℚ) (channels : ℕ) :
    ℕ → RenderState → RenderState × List (List ℚ)
  | 0, rs => (rs, [])
  | n + 1, rs =>
      let r1 := renderStep sin sample_rate channels rs
      let r2 := renderCallback sin sample_rate channels n r1.1
      (r2.1, r1.2 :: r2.2)

/-! ## Envelope call sequences -/

/-- One external operation on the envelope: a render-path `advance dt`
(calling `Adsr::next`) or a control-path `note_on` / `note_off`. -/
inductive AdsrOp where
  | advance (dt : ℚ)
  | noteOn
  | noteOff
deriving DecidableEq

/-- Apply one operation to an envelope. -/
def applyOp (a : Adsr) : AdsrOp → Adsr
  | AdsrOp.advance dt => (a.next dt).2
  | AdsrOp.noteOn => a.note_on
  | AdsrOp.noteOff => a.note_off

/-- Run a sequence of operations from the left. -/
def runOps (a : Adsr) : List AdsrOp → Adsr
  | [] => a
  | op :: ops => runOps (applyOp a op) ops

/-- Every `advance` in the list has a nonnegative time step. -/
def NonnegSteps (ops : List AdsrOp) : Prop :=
  ∀ dt : ℚ, AdsrOp.advance dt ∈ ops → 0 ≤ dt

/-! ## Envelope invariant -/

/-- The envelope invariant: strictly positive time constants, sustain and
level inside `[0,1]`. -/
def Inv (a : Adsr) : Prop :=
  0 < a.attack ∧ 0 < a.decay ∧ 0 < a.release ∧
  0 ≤ a.sustain ∧ a.sustain ≤ 1 ∧ 0 ≤ a.level ∧ a.level ≤ 1

theorem inv_note_on {a : Adsr} (ha : Inv a) : Inv a.note_on := ha

theorem inv_note_off {a : Adsr} (ha : Inv a) : Inv a.note_off := by
  unfold Adsr.note_off
  split <;> exact ha

theorem inv_next {a : Adsr} (ha : Inv a) {dt : ℚ} (hdt : 0 ≤ dt) :
    Inv (a.next dt).2 := by
  obtain ⟨att, dec, sus, rel, st, lv⟩ := a
  obtain ⟨h1, h2, h3, h4, h5, h6, h7⟩ := ha
  simp only [Inv] at *
  cases st
  case Idle =>
    exact ⟨h1, h2, h3, h4, h5, le_refl 0, zero_le_one⟩
  case Attack =>
    simp only [Adsr.next]
    split_ifs with h <;> refine ⟨h1, h2, h3, h4, h5, ?_, ?_⟩
    · exact zero_le_one
    · exact le_refl 1
    · exact add_nonneg h6 (div_nonneg hdt (le_of_lt h1))
    · exact le_of_lt (lt_of_not_le h)
  case Decay =>
    simp only [Adsr.next]
    split_ifs with h <;> refine ⟨h1, h2, h3, h4, h5, ?_, ?_⟩
    · exact h4
    · exact h5
    · exact le_trans h4 (le_of_lt (lt_of_not_le h))
    · have hstep : 0 ≤ dt / dec * (1 - sus) :=
        mul_nonneg (div_nonneg hdt (le_of_lt h2)) (by linarith)
      linarith
  case Sustain =>
    exact ⟨h1, h2, h3, h4, h5, h4, h5⟩
  case Release =>
    simp only [Adsr.next]
    split_ifs with h <;> refine ⟨h1, h2, h3, h4, h5, ?_, ?_⟩
    · exact le_refl 0
    · exact zero_le_one
    · exact le_of_lt (lt_of_not_le h)
    · have hstep : 0 ≤ dt / rel * max lv EPS :=
        mul_nonneg (div_nonneg hdt (le_of_lt h3)) (le_trans h6 (le_max_left _ _))
      linarith

theorem inv_runOps {a : Adsr} (ops : List AdsrOp) (ha : Inv a)
    (hops : NonnegSteps ops) : Inv (runOps a ops) := by
  induction ops generalizing a with
  | nil => exact ha
  | cons op ops ih =>
      have htail : NonnegSteps ops := fun dt h => hops dt (List.mem_cons_of_mem _ h)
      cases op with
      | advance dt =>
          exact ih (inv_next ha (hops dt (List.mem_cons_self _ _))) htail
      | noteOn => exact ih (inv_note_on ha) htail
      | noteOff => exact ih (inv_note_off ha) htail

theorem inv_new {attack decay sustain release : ℚ}
    (hs0 : 0 ≤ sustain) (hs1 : sustain ≤ 1) :
    Inv (Adsr.new attack decay sustain release) := by
  refine ⟨?_, ?_, ?_, hs0, hs1, le_refl 0, zero_le_one⟩ <;>
    exact lt_max_of_lt_right (by norm_num [EPS])

/-! ## Example states used by concrete instantiations -/

/-- The shared state right after the `on` command: gate set and `note_on`
applied to the initial envelope. -/
def stateOn : SynthState := (processCmd initState "on" Arg.missing).1

/-- A render state whose shared parameters are `stateOn`, at sample rate
`100` (so `dt = 1/100` equals the initial attack time). -/
def rsOn : RenderState :=
  { carrier := SineOsc.new 220 100
    modulator := SineOsc.new 440 100
    shared := stateOn }

/-- A concrete envelope sitting in the `Sustain` state with level `1/2`,
sustain `1/2` and release time `1`. -/
def releaseEx : Adsr :=
  { attack := 1, decay := 1, sustain := 1/2, release := 1,
    state := AdsrState.Sustain, level := 1/2 }

/-- `releaseEx` after `note_off`. -/
def relStep0 : Adsr :=
  { attack := 1, decay := 1, sustain := 1/2, release := 1,
    state := AdsrState.Release, level := 1/2 }

/-- `relStep0` after `advance (1/2)`. -/
def relStep1 : Adsr :=
  { attack := 1, decay := 1, sustain := 1/2, release := 1,
    state := AdsrState.Release, level := 1/4 }

/-- `relStep1` after `advance (1/2)`. -/
def relStep2 : Adsr :=
  { attack := 1, decay := 1, sustain := 1/2, release := 1,
    state := AdsrState.Release, level := 1/8 }

/-! ## Claims -/

/-- C2: for every envelope constructed with positive `attack`, `decay`,
`release` and `sustain ∈ [0,1]`, and every finite sequence of
`advance(dt)` (with `dt ≥ 0`), `note_on` and `note_off` calls, the `level`
field stays in `[0,1]` after each call. -/
theorem c2_level_in_unit_interval (attack decay sustain release : ℚ)
    (hatt : 0 < attack) (hdec : 0 < decay) (hrel : 0 < release)
    (hs0 : 0 ≤ sustain) (hs1 : sustain ≤ 1)
    (ops : List AdsrOp) (hops : NonnegSteps ops) :
    0 ≤ (runOps (Adsr.new attack decay sustain release) ops).level ∧
    (runOps (Adsr.new attack decay sustain release) ops).level ≤ 1 := by
  have h := @inv_runOps (Adsr.new attack decay sustain release) ops
    (@inv_new attack decay sustain release hs0 hs1) hops
  exact ⟨h.2.2.2.2.2.1, h.2.2.2.2.2.2⟩

/-- Witness for C2: the default envelope, note on, half an attack time,
note off, a release step. -/
theorem c2_level_in_unit_interval_witness :
    (0:ℚ) < 1/100 ∧ (0:ℚ) < 1/10 ∧ (0:ℚ) < 3/10 ∧ (0:ℚ) ≤ 4/5 ∧ (4/5:ℚ) ≤ 1 ∧
    (0 ≤ (runOps (Adsr.new (1/100) (1/10) (4/5) (3/10))
          [AdsrOp.noteOn, AdsrOp.advance (1/200), AdsrOp.noteOff,
           AdsrOp.advance (1/10)]).level ∧
     (runOps (Adsr.new (1/100) (1/10) (4/5) (3/10))
          [AdsrOp.noteOn, AdsrOp.advance (1/200), AdsrOp.noteOff,
           AdsrOp.advance (1/10)]).level ≤ 1) := by
  refine ⟨by norm_num, by norm_num, by norm_num, by norm_num, by norm_num, ?_⟩
  apply c2_level_in_unit_interval (1/100) (1/10) (4/5) (3/10)
    (by norm_num) (by norm_num) (by norm_num) (by norm_num) (by norm_num)
  intro dt h
  simp at h
  rcases h with rfl | rfl <;> norm_num

/-- C3 is false as stated: from the Sustain state with level `1/2` and
release time `1`, a `note_off` followed by two advances of `1/2` (summing to
exactly the release time) leaves the envelope in `Release` with level `1/8`,
not `Idle` with level `0`. -/
theorem c3_release_total_time_counterexample :
    releaseEx.state ≠ AdsrState.Idle ∧
    (0:ℚ) ≤ 1/2 ∧ (1/2 + 1/2 : ℚ) = releaseEx.release ∧
    (runOps releaseEx
        [AdsrOp.noteOff, AdsrOp.advance (1/2), AdsrOp.advance (1/2)]).state ≠
      AdsrState.Idle ∧
    (runOps releaseEx
        [AdsrOp.noteOff, AdsrOp.advance (1/2), AdsrOp.advance (1/2)]).level =
      1/8 := by
  have h0 : releaseEx.note_off = relStep0 := rfl
  have h1 : relStep0.next (1/2) = (1/4, relStep1) := by
    norm_num [relStep0, relStep1, Adsr.next, EPS, max_def, Adsr.mk.injEq,
      Prod.ext_iff]
  have h2 : relStep1.next (1/2) = (1/8, relStep2) := by
    norm_num [relStep1, relStep2, Adsr.next, EPS, max_def, Adsr.mk.injEq,
      Prod.ext_iff]
  have hrun : runOps releaseEx
      [AdsrOp.noteOff, AdsrOp.advance (1/2), AdsrOp.advance (1/2)] =
      relStep2 := by
    simp only [runOps, applyOp]
    rw [h0, h1]
    simp only []
    rw [h2]
  refine ⟨by simp [releaseEx], by norm_num, by norm_num [releaseEx], ?_, ?_⟩ <;>
    rw [hrun]
  · simp [relStep2]
  · rfl

/-- C3 (amended): starting from any non-Idle state with positive release
time, a `note_off` followed by a single `advance(dt)` with `dt ≥ release`
puts the envelope in `Idle` with level `0`.  (The original claim, for a
sequence of advances whose `dt`s merely sum to at least `release`, is false:
the release decrement is proportional to the current level, so many small
steps decay the level geometrically without reaching `0`.) -/
theorem c3_release_single_step_amended (a : Adsr)
    (hstate : a.state ≠ AdsrState.Idle) (hrel : 0 < a.release)
    (dt : ℚ) (hdt : a.release ≤ dt) :
    (a.note_off.next dt).2.state = AdsrState.Idle ∧
    (a.note_off.next dt).2.level = 0 := by
  have hoff : a.note_off = { a with state := AdsrState.Release } := by
    simp [Adsr.note_off, hstate]
  have hone : 1 ≤ dt / a.release := (one_le_div hrel).mpr hdt
  have heps : (0:ℚ) < EPS := by norm_num [EPS]
  have hl : a.level - dt / a.release * max a.level EPS ≤ 0 := by
    rcases le_or_lt EPS a.level with h | h
    · rw [max_eq_left h]
      nlinarith
    · rw [max_eq_right h.le]
      nlinarith
  rw [hoff]
  simp only [Adsr.next]
  split_ifs
  exact ⟨rfl, rfl⟩

/-- Witness for the amended C3: `releaseEx` with a single advance of `1`. -/
theorem c3_release_single_step_amended_witness :
    releaseEx.state ≠ AdsrState.Idle ∧ (0:ℚ) < releaseEx.release ∧
    releaseEx.release ≤ 1 ∧
    (releaseEx.note_off.next 1).2.state = AdsrState.Idle ∧
    (releaseEx.note_off.next 1).2.level = 0 := by
  refine ⟨by simp [releaseEx], by norm_num [releaseEx], by norm_num [releaseEx],
    ?_, ?_⟩
  · exact (c3_release_single_step_amended releaseEx (by simp [releaseEx])
      (by norm_num [releaseEx]) 1 (by norm_num [releaseEx])).1
  · exact (c3_release_single_step_amended releaseEx (by simp [releaseEx])
      (by norm_num [releaseEx]) 1 (by norm_num [releaseEx])).2

/-- C4 is false as stated: with phase `0` and a stored increment of `-1`
(negative increments arise from the per-sample FM deviation), `next()`
leaves the phase at `-1`, outside `[0, 2π)`: the single conditional
subtraction wraps only increments in `[0, 2π]`. -/
theorem c4_phase_wrap_counterexample :
    ¬ (0 ≤ (SineOsc.next (fun _ => 0)
              { phase := 0, phase_inc := -1 }).2.phase ∧
       (SineOsc.next (fun _ => 0)
              { phase := 0, phase_inc := -1 }).2.phase < TAU) := by
  intro hcon
  have hphase : (SineOsc.next (fun _ => 0)
      { phase := 0, phase_inc := -1 }).2.phase = -1 := by
    norm_num [SineOsc.next, SineOsc.step, TAU]
  rw [hphase] at hcon
  norm_num at hcon

/-- C4 (amended): `next` returns `sin` of the pre-call phase, leaves the
stored increment unchanged, and the new phase is the old phase plus the
increment, wrapped by at most one subtraction of `2π`; provided the
increment lies in `[0, 2π]` and the old phase in `[0, 2π)`, the new phase
is again in `[0, 2π)`.  (The original claim, for arbitrary increments
including negative ones or ones above `2π`, is false.) -/
theorem c4_phase_wrap_amended (sin : ℚ → ℚ) (o : SineOsc)
    (h0 : 0 ≤ o.phase) (h1 : o.phase < TAU)
    (hi0 : 0 ≤ o.phase_inc) (hi1 : o.phase_inc ≤ TAU) :
    (o.next sin).1 = sin o.phase ∧
    (o.next sin).2.phase_inc = o.phase_inc ∧
    ((o.next sin).2.phase = o.phase + o.phase_inc ∨
     (o.next sin).2.phase = o.phase + o.phase_inc - TAU) ∧
    0 ≤ (o.next sin).2.phase ∧ (o.next sin).2.phase < TAU := by
  refine ⟨rfl, rfl, ?_⟩
  simp only [SineOsc.next, SineOsc.step]
  split_ifs with h
  · exact ⟨Or.inr rfl, by linarith, by linarith⟩
  · have hp : o.phase + o.phase_inc < TAU := lt_of_not_le h
    exact ⟨Or.inl rfl, by linarith, hp⟩

/-- Witness for the amended C4: phase `1`, increment `3`. -/
theorem c4_phase_wrap_amended_witness :
    (0:ℚ) ≤ 1 ∧ (1:ℚ) < TAU ∧ (0:ℚ) ≤ 3 ∧ (3:ℚ) ≤ TAU ∧
    (0 ≤ (SineOsc.next (fun _ => 0) { phase := 1, phase_inc := 3 }).2.phase ∧
     (SineOsc.next (fun _ => 0) { phase := 1, phase_inc := 3 }).2.phase < TAU) := by
  refine ⟨by norm_num, by norm_num [TAU], by norm_num, by norm_num [TAU], ?_⟩
  exact (c4_phase_wrap_amended (fun _ => 0) { phase := 1, phase_inc := 3 }
    (by norm_num) (by norm_num [TAU]) (by norm_num) (by norm_num [TAU])).2.2.2

/-- C5: after every render iteration the carrier's stored phase increment
equals the nominal increment `carrier_freq · 2π / sample_rate` from the
snapshot: the per-sample deviation never accumulates into the stored
increment. -/
theorem c5_nominal_increment_restored (sin : ℚ → ℚ) (sample_rate : ℚ)
    (channels : ℕ) (rs : RenderState) :
    ((renderStep sin sample_rate channels rs).1).carrier.phase_inc =
      rs.shared.carrier_freq * TAU / sample_rate := rfl

theorem renderStep_snd_replicate (sin : ℚ → ℚ) (sample_rate : ℚ)
    (channels : ℕ) (rs : RenderState) :
    ∃ v, (renderStep sin sample_rate channels rs).2 = List.replicate channels v :=
  ⟨_, rfl⟩

/-- C6: every frame the render callback writes consists of `channels` slots
all holding the identical sample value. -/
theorem c6_frames_uniform (sin : ℚ → ℚ) (sample_rate : ℚ) (channels : ℕ)
    (n : ℕ) (rs : RenderState) (frame : List ℚ)
    (hf : frame ∈ (renderCallback sin sample_rate channels n rs).2) :
    frame.length = channels ∧ ∀ x ∈ frame, ∀ y ∈ frame, x = y := by
  induction n generalizing rs with
  | zero => simp [renderCallback] at hf
  | succ n ih =>
      simp only [renderCallback, List.mem_cons] at hf
      rcases hf with rfl | hf
      · obtain ⟨v, hv⟩ := renderStep_snd_replicate sin sample_rate channels rs
        rw [hv]
        refine ⟨List.length_replicate _ _, ?_⟩
        intro x hx y hy
        rw [List.eq_of_mem_replicate hx, List.eq_of_mem_replicate hy]
      · exact ih _ hf

/-- Witness for C6: one frame at sample rate 100 with 2 channels, the zero
sine, from the post-`on` render state. -/
theorem c6_frames_uniform_witness :
    List.replicate 2 (0:ℚ) ∈ (renderCallback (fun _ => 0) 100 2 1 rsOn).2 ∧
    (List.replicate 2 (0:ℚ)).length = 2 ∧
    ∀ x ∈ List.replicate 2 (0:ℚ), ∀ y ∈ List.replicate 2 (0:ℚ), x = y := by
  have hm : List.replicate 2 (0:ℚ) ∈ (renderCallback (fun _ => 0) 100 2 1 rsOn).2 := by
    simp [renderCallback, renderStep, SineOsc.next]
  exact ⟨hm, (c6_frames_uniform (fun _ => 0) 100 2 1 rsOn _ hm).1,
    (c6_frames_uniform (fun _ => 0) 100 2 1 rsOn _ hm).2⟩

/-- C7: with a parseable float argument `v`, command `n` sets
`carrier_freq` to `max v 1`, `r` sets `mod_ratio` to `max v 0`, `i` sets
`mod_index` to `max v 0`, and `a` sets `amp` to `v` clamped into `[0,1]`;
none of them stops the loop. -/
theorem c7_numeric_commands (s : SynthState) (v : ℚ) :
    processCmd s "n" (Arg.num v) = ({ s with carrier_freq := max v 1 }, false) ∧
    processCmd s "r" (Arg.num v) = ({ s with mod_ratio := max v 0 }, false) ∧
    processCmd s "i" (Arg.num v) = ({ s with mod_index := max v 0 }, false) ∧
    processCmd s "a" (Arg.num v) = ({ s with amp := min (max v 0) 1 }, false) :=
  ⟨rfl, rfl, rfl, rfl⟩

/-- C8: an unknown command token, or a known numeric command whose argument
is missing or fails to parse, leaves the shared state entirely unchanged and
does not terminate the control loop. -/
theorem c8_bad_input_ignored (s : SynthState) (cmd : String) (arg : Arg) :
    (cmd ∉ (["q", "quit", "n", "r", "i", "a", "on", "off"] : List String) →
      processCmd s cmd arg = (s, false)) ∧
    (cmd ∈ (["n", "r", "i", "a"] : List String) →
      (∀ v : ℚ, arg ≠ Arg.num v) → processCmd s cmd arg = (s, false)) := by
  constructor
  · intro hcmd
    simp only [List.mem_cons, List.not_mem_nil, or_false, not_or] at hcmd
    obtain ⟨hq, hquit, hn, hr, hi, ha, hon, hoff⟩ := hcmd
    unfold processCmd
    split
    · simp at hq
    · simp at hquit
    · exact absurd rfl hn
    · exact absurd rfl hr
    · exact absurd rfl hi
    · exact absurd rfl ha
    · exact absurd rfl hon
    · exact absurd rfl hoff
    · rfl
  · intro hmem hv
    have harg : arg = Arg.unparseable ∨ arg = Arg.missing := by
      cases arg with
      | num v => exact absurd rfl (hv v)
      | unparseable => exact Or.inl rfl
      | missing => exact Or.inr rfl
    simp only [List.mem_cons, List.not_mem_nil, or_false] at hmem
    rcases hmem with rfl | rfl | rfl | rfl <;> rcases harg with rfl | rfl <;> rfl

/-- Witness for C8: the unknown command `xyz`, and command `n` with an
unparseable argument. -/
theorem c8_bad_input_ignored_witness :
    processCmd initState "xyz" Arg.missing = (initState, false) ∧
    processCmd initState "n" Arg.unparseable = (initState, false) := by
  constructor
  · exact (c8_bad_input_ignored initState "xyz" Arg.missing).1 (by decide)
  · exact (c8_bad_input_ignored initState "n" Arg.unparseable).2 (by decide)
      (fun v h => Arg.noConfusion h)

/-- C9: `note_on` moves any envelope to `Attack` changing nothing else (in
particular the level is kept, a retrigger from the current level), and
`note_off` on an `Idle` envelope is a no-op. -/
theorem c9_retrigger_and_idle_note_off (a : Adsr) :
    a.note_on = { a with state := AdsrState.Attack } ∧
    a.note_on.level = a.level ∧
    (a.state = AdsrState.Idle → a.note_off = a) := by
  refine ⟨rfl, rfl, fun h => ?_⟩
  simp [Adsr.note_off, h]

/-- Witness for C9: the freshly constructed (Idle) default envelope. -/
theorem c9_retrigger_and_idle_note_off_witness :
    (Adsr.new (1/100) (1/10) (4/5) (3/10)).state = AdsrState.Idle ∧
    (Adsr.new (1/100) (1/10) (4/5) (3/10)).note_off =
      Adsr.new (1/100) (1/10) (4/5) (3/10) ∧
    (Adsr.new (1/100) (1/10) (4/5) (3/10)).note_on.level =
      (Adsr.new (1/100) (1/10) (4/5) (3/10)).level :=
  ⟨rfl, (c9_retrigger_and_idle_note_off (Adsr.new (1/100) (1/10) (4/5) (3/10))).2.2 rfl,
    (c9_retrigger_and_idle_note_off (Adsr.new (1/100) (1/10) (4/5) (3/10))).2.1⟩

/-- C10: the constructor clamps `attack`, `decay` and `release` to at least
`1e-6` but stores `sustain` unchanged and unvalidated, and a step taken in
the `Sustain` state sets the level to that raw stored value. -/
theorem c10_sustain_unvalidated (attack decay sustain release : ℚ)
    (a : Adsr) (dt : ℚ) (hst : a.state = AdsrState.Sustain) :
    (Adsr.new attack decay sustain release).attack = max attack EPS ∧
    (Adsr.new attack decay sustain release).decay = max decay EPS ∧
    (Adsr.new attack decay sustain release).release = max release EPS ∧
    (Adsr.new attack decay sustain release).sustain = sustain ∧
    (a.next dt).1 = a.sustain ∧ (a.next dt).2.level = a.sustain := by
  refine ⟨rfl, rfl, rfl, rfl, ?_, ?_⟩ <;> simp only [Adsr.next, hst]

/-- A concrete envelope sitting in `Sustain` with the out-of-range sustain
value `2`. -/
def sustainTwo : Adsr :=
  { attack := 1, decay := 1, sustain := 2, release := 1,
    state := AdsrState.Sustain, level := 1 }

/-- Witness for C10: sustain `2` is stored as-is and one `Sustain` step
drives the level to `2`, outside `[0,1]`. -/
theorem c10_sustain_unvalidated_witness :
    (Adsr.new 1 1 2 1).sustain = 2 ∧
    sustainTwo.state = AdsrState.Sustain ∧
    (sustainTwo.next (1/100)).2.level = 2 ∧
    ¬ ((sustainTwo.next (1/100)).2.level ≤ 1) := by
  have h := c10_sustain_unvalidated 1 1 2 1 sustainTwo (1/100) rfl
  have hl : (sustainTwo.next (1/100)).2.level = 2 := by
    rw [h.2.2.2.2.2]
    rfl
  refine ⟨h.2.2.2.1, rfl, hl, ?_⟩
  rw [hl]
  norm_num

/-- C1 (code bug): the render path never advances the shared envelope.  The
source copies the shared `Adsr` (`adsr_local`), advances a second copy
(`let mut ad = adsr_local; ad.next(dt)` — `Adsr` is `Copy`, so `ad` is a
fresh copy and `adsr_local` is untouched) and writes the untouched copy
back; so after each render iteration the shared envelope equals its previous
value (first conjunct, for all inputs), even where one `advance(dt)` would
have changed it (second conjunct, at the post-`on` state with
`dt = attack = 1/100`). -/
theorem c1_shared_envelope_never_advanced :
    (∀ (sin : ℚ → ℚ) (sample_rate : ℚ) (channels : ℕ) (rs : RenderState),
        (renderStep sin sample_rate channels rs).1.shared.adsr =
          rs.shared.adsr) ∧
    (stateOn.adsr.next (1/100)).2 ≠ stateOn.adsr := by
  constructor
  · intro sin sample_rate channels rs
    rfl
  · intro hcontra
    have hadsr : stateOn.adsr =
        { attack := 1/100, decay := 1/10, sustain := 4/5, release := 3/10,
          state := AdsrState.Attack, level := 0 } := by
      norm_num [stateOn, processCmd, initState, Adsr.new, Adsr.note_on, EPS,
        max_def, Adsr.mk.injEq]
    have hnext : (stateOn.adsr.next (1/100)).2.state = AdsrState.Decay := by
      rw [hadsr]
      norm_num [Adsr.next]
    rw [hcontra, hadsr] at hnext
    exact AdsrState.noConfusion hnext

end FmSynth
